import Mathlib

set_option maxRecDepth 100000

/-!
Shallow embedding of `src/bc_node_srvr.py` (a single-file blockchain node).

Modelling conventions:
* Python `int` timestamps are modelled as `Nat`; the concrete inputs used in the
  theorems below all carry integer timestamps, which Python's `json.dumps`
  prints exactly as `Nat.repr` does.
* A `Block` object's `hash` attribute is modelled as `Option String`: the
  constructor `Block.__init__` never sets it (`none`), assignment
  `block.hash = ...` sets it to `some`, and `delattr(block, "hash")` returns it
  to `none`.  `compute_hash` serialises `self.__dict__`, so the `hash` entry is
  part of the digested string exactly when the attribute is present.
* Raised Python exceptions are modelled as `Except.error` values of `PyErr`.
* `hashlib.sha256(...).hexdigest()` is modelled by the executable `sha256hex`
  below (FIPS 180-4, for byte strings of ASCII characters, which covers every
  string serialised in this development).  The operations of the ledger are
  additionally parameterised over the digest primitive `H : String → String`
  so that structural theorems are proved for any digest function and
  instantiated at `sha256hex`.
-/

/-! ## SHA-256 (model of `hashlib.sha256(...).hexdigest()`) -/

/-- Modulus for 32-bit words. -/
def M32 : Nat := 4294967296

/-- Right rotation of a 32-bit word. -/
def rotr (k n : Nat) : Nat := ((n >>> k) ||| (n <<< (32 - k))) % M32

/-- Logical right shift of a 32-bit word. -/
def shr (k n : Nat) : Nat := n >>> k

/-- SHA-256 Σ0. -/
def bSig0 (x : Nat) : Nat := (rotr 2 x) ^^^ (rotr 13 x) ^^^ (rotr 22 x)

/-- SHA-256 Σ1. -/
def bSig1 (x : Nat) : Nat := (rotr 6 x) ^^^ (rotr 11 x) ^^^ (rotr 25 x)

/-- SHA-256 σ0. -/
def sSig0 (x : Nat) : Nat := (rotr 7 x) ^^^ (rotr 18 x) ^^^ (shr 3 x)

/-- SHA-256 σ1. -/
def sSig1 (x : Nat) : Nat := (rotr 17 x) ^^^ (rotr 19 x) ^^^ (shr 10 x)

/-- SHA-256 Ch (bitwise not of a 32-bit word is xor with the all-ones mask). -/
def chFn (x y z : Nat) : Nat := (x &&& y) ^^^ ((x ^^^ 4294967295) &&& z)

/-- SHA-256 Maj. -/
def majFn (x y z : Nat) : Nat := (x &&& y) ^^^ (x &&& z) ^^^ (y &&& z)

/-- SHA-256 round constants. -/
def shaK : List Nat :=
  [1116352408, 1899447441, 3049323471, 3921009573, 961987163, 1508970993,
   2453635748, 2870763221, 3624381080, 310598401, 607225278, 1426881987,
   1925078388, 2162078206, 2614888103, 3248222580, 3835390401, 4022224774,
   264347078, 604807628, 770255983, 1249150122, 1555081692, 1996064986,
   2554220882, 2821834349, 2952996808, 3210313671, 3336571891, 3584528711,
   113926993, 338241895, 666307205, 773529912, 1294757372, 1396182291,
   1695183700, 1986661051, 2177026350, 2456956037, 2730485921, 2820302411,
   3259730800, 3345764771, 3516065817, 3600352804, 4094571909, 275423344,
   430227734, 506948616, 659060556, 883997877, 958139571, 1322822218,
   1537002063, 1747873779, 1955562222, 2024104815, 2227730452, 2361852424,
   2428436474, 2756734187, 3204031479, 3329325298]

/-- SHA-256 initial hash state. -/
def shaH0 : List Nat :=
  [1779033703, 3144134277, 1013904242, 2773480762,
   1359893119, 2600822924, 528734635, 1541459225]

/-- List lookup defaulting to 0 (indices are always in range at the call sites). -/
def nth (l : List Nat) (i : Nat) : Nat := l.getD i 0

/-- Big-endian bytes of the 64-bit message bit length. -/
def lenBytes (bitlen : Nat) : List Nat :=
  [(bitlen >>> 56) % 256, (bitlen >>> 48) % 256, (bitlen >>> 40) % 256, (bitlen >>> 32) % 256,
   (bitlen >>> 24) % 256, (bitlen >>> 16) % 256, (bitlen >>> 8) % 256, bitlen % 256]

/-- SHA-256 padding: append 0x80, zeros to 56 mod 64, then the 64-bit length. -/
def shaPad (msg : List Nat) : List Nat :=
  let len := msg.length
  let r := (len + 1) % 64
  let k := (120 - r) % 64
  msg ++ 0x80 :: (List.replicate k 0 ++ lenBytes (8 * len))

/-- Group bytes into 32-bit big-endian words. -/
def words16 : List Nat → List Nat
  | b0 :: b1 :: b2 :: b3 :: rest => (((b0 * 256 + b1) * 256 + b2) * 256 + b3) :: words16 rest
  | _ => []

/-- Split a byte list into 64-byte chunks (fuel-structured for kernel reduction). -/
def chunksGo : Nat → List Nat → List (List Nat)
  | 0, _ => []
  | _, [] => []
  | n + 1, l => l.take 64 :: chunksGo n (l.drop 64)

/-- Split a byte list into 64-byte chunks. -/
def chunks64 (l : List Nat) : List (List Nat) := chunksGo l.length l

/-- Extend the 16-word message schedule to 64 words. -/
def extendSchedule : Nat → List Nat → List Nat
  | 0, w => w
  | n + 1, w =>
    let t := w.length
    let next := (sSig1 (nth w (t - 2)) + nth w (t - 7) + sSig0 (nth w (t - 15)) + nth w (t - 16)) % M32
    extendSchedule n (w ++ [next])

/-- One SHA-256 round on the 8-word working state, given `(k, w)` for this round. -/
def roundFn (st : List Nat) (kw : Nat × Nat) : List Nat :=
  let a := nth st 0
  let b := nth st 1
  let c := nth st 2
  let d := nth st 3
  let e := nth st 4
  let f := nth st 5
  let g := nth st 6
  let h := nth st 7
  let t1 := (h + bSig1 e + chFn e f g + kw.1 + kw.2) % M32
  let t2 := (bSig0 a + majFn a b c) % M32
  [(t1 + t2) % M32, a, b, c, (d + t1) % M32, e, f, g]

/-- SHA-256 compression of one 16-word chunk into the hash state. -/
def compress (hs chunkWords : List Nat) : List Nat :=
  let w := extendSchedule 48 chunkWords
  let st := (shaK.zip w).foldl roundFn hs
  (hs.zip st).map (fun p => (p.1 + p.2) % M32)

/-- SHA-256 over a byte list, producing the 8-word digest. -/
def sha256Words (msg : List Nat) : List Nat :=
  (chunks64 (shaPad msg)).foldl (fun hs chunk => compress hs (words16 chunk)) shaH0

/-- Lowercase hex character for a nibble. -/
def hexChar (n : Nat) : Char := "0123456789abcdef".data.getD n '0'

/-- Lowercase hex rendering of a 32-bit word (8 nibbles, big-endian). -/
def word2hex (n : Nat) : List Char :=
  [hexChar ((n >>> 28) % 16), hexChar ((n >>> 24) % 16), hexChar ((n >>> 20) % 16),
   hexChar ((n >>> 16) % 16), hexChar ((n >>> 12) % 16), hexChar ((n >>> 8) % 16),
   hexChar ((n >>> 4) % 16), hexChar (n % 16)]

/-- Bytes of an ASCII string (all strings serialised in this development are ASCII,
where UTF-8 bytes coincide with the character codes). -/
def strBytes (s : String) : List Nat := s.data.map Char.toNat

/-- Model of `hashlib.sha256(s.encode()).hexdigest()` for ASCII `s`. -/
def sha256hex (s : String) : String :=
  String.mk (List.flatten ((sha256Words (strBytes s)).map word2hex))

/-- Sanity check of the SHA-256 model against the FIPS 180-4 test vector for "abc". -/
theorem sha256hex_abc :
    sha256hex "abc" = "ba7816bf8f01cfea414140de5dae2223b00361a396177a9cb410ff61f20015ad" := by
  decide

/-! ## Data model

`Tx` models the transaction dicts the node actually queues: the
`/new_transaction` endpoint stores `{"author": ..., "content": ..., "timestamp": ...}`. -/

/-- Transaction payload, as built by the `/new_transaction` endpoint (lines 196-209). -/
structure Tx where
  author : String
  content : String
  timestamp : Nat
deriving DecidableEq

/-- Python `Block` object (lines 16-30).  `Block.__init__` sets the five content
fields and never sets `hash`, so a freshly constructed block has `hash = none`;
`block.hash = ...` assignments set it to `some`. -/
structure Block where
  index : Nat
  transactions : List Tx
  timestamp : Nat
  previous_hash : String
  nonce : Nat
  hash : Option String
deriving DecidableEq

/-- Python exceptions raised by the embedded code. -/
inductive PyErr where
  | attributeError (msg : String)
  | indexError
  | exception (msg : String)
deriving DecidableEq

/-! ## Digest canonicalisation: `json.dumps(self.__dict__, sort_keys=True)`

Default `json.dumps` separators are `", "` and `": "`; `sort_keys=True` orders
the keys alphabetically, so a block without the `hash` attribute serialises its
keys as index, nonce, previous_hash, timestamp, transactions, and a block with
`hash` assigned puts the `hash` entry first. -/

/-- JSON escaping of one character (the inputs used here contain none of the
characters `json.dumps` escapes; quotes, backslashes and the common control
characters are covered for completeness). -/
def jsonEscapeChar (c : Char) : List Char :=
  if c = '"' then ['\\', '"']
  else if c = '\\' then ['\\', '\\']
  else if c = '\n' then ['\\', 'n']
  else if c = '\t' then ['\\', 't']
  else if c = '\r' then ['\\', 'r']
  else [c]

/-- JSON string-content escaping. -/
def jsonEscape (s : String) : String :=
  String.mk (s.data.foldr (fun c acc => jsonEscapeChar c ++ acc) [])

/-- JSON rendering of a quoted string. -/
def serStr (s : String) : String := "\"" ++ jsonEscape s ++ "\""

/-- JSON rendering of a transaction dict with sorted keys. -/
def serTx (t : Tx) : String :=
  "\x7b\"author\": " ++ serStr t.author ++ ", \"content\": " ++ serStr t.content ++
    ", \"timestamp\": " ++ Nat.repr t.timestamp ++ "\x7d"

/-- JSON rendering of a transaction list. -/
def serTxs (ts : List Tx) : String :=
  "[" ++ String.intercalate ", " (ts.map serTx) ++ "]"

/-- Model of `json.dumps(self.__dict__, sort_keys=True)` for a `Block` (line 41).
The `hash` entry participates exactly when the attribute is present. -/
def serBlock (b : Block) : String :=
  match b.hash with
  | none =>
    "\x7b\"index\": " ++ Nat.repr b.index ++ ", \"nonce\": " ++ Nat.repr b.nonce ++
      ", \"previous_hash\": " ++ serStr b.previous_hash ++ ", \"timestamp\": " ++
      Nat.repr b.timestamp ++ ", \"transactions\": " ++ serTxs b.transactions ++ "\x7d"
  | some h =>
    "\x7b\"hash\": " ++ serStr h ++ ", \"index\": " ++ Nat.repr b.index ++ ", \"nonce\": " ++
      Nat.repr b.nonce ++ ", \"previous_hash\": " ++ serStr b.previous_hash ++
      ", \"timestamp\": " ++ Nat.repr b.timestamp ++ ", \"transactions\": " ++
      serTxs b.transactions ++ "\x7d"

/-- Model of `Block.compute_hash` (lines 32-42), parameterised over the digest
primitive `H` standing for `hashlib.sha256(...).hexdigest()`. -/
def compute_hash (H : String → String) (b : Block) : String := H (serBlock b)

/-! ## Ledger -/

/-- Python `Blockchain` object state (lines 47-52): the pending pool and the chain. -/
structure Blockchain where
  unconfirmed_transactions : List Tx
  chain : List Block
deriving DecidableEq

/-- Class attribute `Blockchain.difficulty = 2` (line 45). -/
def difficulty : Nat := 2

/-- The difficulty target string, Python `'0' * Blockchain.difficulty`. -/
def zeros : String := String.mk (List.replicate difficulty '0')

/-- Python `str.startswith`. -/
def py_startswith (s pre : String) : Bool := decide (s.data.take pre.data.length = pre.data)

/-- Fresh `Blockchain()` (lines 47-52): empty pool and empty chain. -/
def Blockchain.new : Blockchain := { unconfirmed_transactions := [], chain := [] }

/-- Method `create_genesis_block` (lines 55-62): appends `Block(0, [], 0, "0")` with its
hash assigned from `compute_hash` (computed while the `hash` attribute is absent). -/
def create_genesis_block (H : String → String) (b : Blockchain) : Blockchain :=
  let genesis_block : Block :=
    { index := 0, transactions := [], timestamp := 0, previous_hash := "0", nonce := 0, hash := none }
  let sealed := { genesis_block with hash := some (compute_hash H genesis_block) }
  { b with chain := b.chain ++ [sealed] }

/-- The node startup state (lines 183-184): `Blockchain()` then `create_genesis_block()`. -/
def init_blockchain (H : String → String) : Blockchain :=
  create_genesis_block H Blockchain.new

/-- The genesis block content, `Block(0, [], 0, "0")`. -/
def genesisBlock : Block :=
  { index := 0, transactions := [], timestamp := 0, previous_hash := "0", nonce := 0,
    hash := none }

/-- The genesis block as sealed by `create_genesis_block` (definitionally the
single chain entry of `init_blockchain H`). -/
def sealedGenesis (H : String → String) : Block :=
  { genesisBlock with hash := some (compute_hash H genesisBlock) }

/-- Property `last_block` (lines 64-70): `self.chain[-1]`, which raises IndexError
on an empty chain. -/
def last_block (b : Blockchain) : Except PyErr Block :=
  match b.chain.getLast? with
  | some blk => .ok blk
  | none => .error .indexError

/-- Method `is_valid_proof` (lines 120-127): `block_hash` must meet the difficulty target
and equal `block.compute_hash()` recomputed on the block as it currently is. -/
def is_valid_proof (H : String → String) (block : Block) (block_hash : String) : Bool :=
  py_startswith block_hash zeros && decide (block_hash = compute_hash H block)

/-- Method `add_block` (lines 76-95).  Reading `self.last_block.hash` raises if the chain
is empty or the head has no `hash` attribute; a `previous_hash` mismatch or an
invalid proof returns `False` with no state change; otherwise the block is
sealed with `block.hash = proof` and appended. -/
def add_block (H : String → String) (b : Blockchain) (block : Block) (proof : String) :
    Except PyErr (Blockchain × Bool) :=
  match last_block b with
  | .error e => .error e
  | .ok lb =>
    match lb.hash with
    | none => .error (.attributeError "Block object has no attribute hash")
    | some previous_hash =>
      if previous_hash ≠ block.previous_hash then .ok (b, false)
      else if is_valid_proof H block proof = false then .ok (b, false)
      else .ok ({ b with chain := b.chain ++ [{ block with hash := some proof }] }, true)

/-- Loop body of `proof_of_work` (lines 108-115): while the current digest misses
the target, increment the nonce and recompute.  The source loop is unbounded;
`fuel` bounds the number of iterations looked at, and `none` means the loop has
not finished within `fuel` steps. -/
def powLoop (H : String → String) : Nat → Block → String → Option (Block × String)
  | 0, _, _ => none
  | fuel + 1, block, computed_hash =>
    if py_startswith computed_hash zeros then some (block, computed_hash)
    else
      let block2 := { block with nonce := block.nonce + 1 }
      powLoop H fuel block2 (compute_hash H block2)

/-- Method `proof_of_work` (lines 102-115): reset the nonce to 0, then search.  The
in-place mutation of the candidate is made explicit by returning the block in
its final state together with the digest. -/
def proof_of_work (H : String → String) (fuel : Nat) (block : Block) : Option (Block × String) :=
  let block0 := { block with nonce := 0 }
  powLoop H fuel block0 (compute_hash H block0)

/-- Method `add_new_transaction` (lines 117-118). -/
def add_new_transaction (b : Blockchain) (t : Tx) : Blockchain :=
  { b with unconfirmed_transactions := b.unconfirmed_transactions ++ [t] }

/-- Loop body of `check_chain_validity` (lines 141-152).  For each block the code
reads `block.hash` (AttributeError if absent), executes `delattr(block, "hash")`,
and then evaluates `cls.is_valid(block, block.hash)`.  Class `Blockchain`
defines no attribute `is_valid` — its validity method is named `is_valid_proof`
(line 121) — so the attribute lookup raises AttributeError for every block that
reaches this point, before the call arguments are even evaluated.  The loop
therefore never completes an iteration; the recursive continuation of the
source loop is dead code. -/
def checkLoop : String → Bool → List Block → Except PyErr Bool
  | _previous_hash, result, [] => .ok result
  | _previous_hash, _result, block :: _rest =>
    match block.hash with
    | none => .error (.attributeError "Block object has no attribute hash")
    | some _block_hash =>
      .error (.attributeError "type object Blockchain has no attribute is_valid")

/-- Method `check_chain_validity` (lines 132-154): `result = True`, `previous_hash = "0"`,
then the loop above. -/
def check_chain_validity (chain : List Block) : Except PyErr Bool :=
  checkLoop "0" true chain

/-- Tail of `mine` (lines 172-175): the Bool returned by `add_block` is **not**
inspected; `unconfirmed_transactions` is reset to `[]` unconditionally and the
method returns `True`. -/
def mineAdmitAndClear (H : String → String) (b : Blockchain) (new_block : Block)
    (proof : String) : Except PyErr (Blockchain × Bool) :=
  match add_block H b new_block proof with
  | .error e => .error e
  | .ok (b2, _added) => .ok ({ b2 with unconfirmed_transactions := [] }, true)

/-- Method `mine` (lines 156-175).  `ts` stands for the `time.time()` value of this call;
the outer `Option` is `none` when the proof-of-work loop does not finish within
`fuel` iterations (the source searches unboundedly). -/
def mine (H : String → String) (fuel ts : Nat) (b : Blockchain) :
    Option (Except PyErr (Blockchain × Bool)) :=
  if b.unconfirmed_transactions = [] then some (.ok (b, false))
  else
    match last_block b with
    | .error e => some (.error e)
    | .ok lb =>
      match lb.hash with
      | none => some (.error (.attributeError "Block object has no attribute hash"))
      | some lbh =>
        let new_block : Block :=
          { index := lb.index + 1, transactions := b.unconfirmed_transactions,
            timestamp := ts, previous_hash := lbh, nonce := 0, hash := none }
        match proof_of_work H fuel new_block with
        | none => none
        | some (nb, proof) => some (mineAdmitAndClear H b nb proof)

/-! ## Consensus and chain reconstruction -/

/-- Value of the module-level `blockchain` global after `consensus()` runs: the
code either keeps the `Blockchain` object or assigns the raw JSON chain dump
list to the global (`blockchain = longest_chain`, line 350). -/
inductive GlobalBC where
  | ledger (b : Blockchain)
  | rawDump (chain : List Block)
deriving DecidableEq

/-- Loop of `consensus` (lines 340-347) over the fetched peer snapshots
`(length, chain)`: candidates no longer than `current_len` are skipped
(Python's `and` short-circuits), otherwise `check_chain_validity` runs and a
passing candidate becomes the new `longest_chain` with `current_len = length`. -/
def consensusLoop (current_len : Nat) (longest_chain : Option (List Block)) :
    List (Nat × List Block) → Except PyErr (Nat × Option (List Block))
  | [] => .ok (current_len, longest_chain)
  | (length, chain) :: rest =>
    if current_len < length then
      match check_chain_validity chain with
      | .error e => .error e
      | .ok true => consensusLoop length (some chain) rest
      | .ok false => consensusLoop current_len longest_chain rest
    else consensusLoop current_len longest_chain rest

/-- Function `consensus` (lines 329-353).  The peer fetches are modelled as the input
snapshot list.  On a truthy `longest_chain` (non-`None` and non-empty) the raw
dump list is assigned to the global and `True` is returned; otherwise the
ledger is kept and `False` is returned. -/
def consensus (b : Blockchain) (snaps : List (Nat × List Block)) :
    Except PyErr (GlobalBC × Bool) :=
  match consensusLoop b.chain.length none snaps with
  | .error e => .error e
  | .ok (_, some c) =>
    if c = [] then .ok (.ledger b, false) else .ok (.rawDump c, true)
  | .ok (_, none) => .ok (.ledger b, false)

/-- One JSON block dict of a chain dump, as read by `create_chain_from_dump`
(lines 291-296): all six keys are accessed, so they are modelled as present. -/
structure BlockDump where
  index : Nat
  transactions : List Tx
  timestamp : Nat
  previous_hash : String
  nonce : Nat
  hash : String
deriving DecidableEq

/-- Loop of `create_chain_from_dump` (lines 288-299): entry 0 is skipped; every
later entry is rebuilt as a fresh `Block` (no `hash` attribute) and submitted to
`add_block` with the dumped `hash` as the claimed proof; a rejection raises
`Exception("The chain dump is tampered!!")`. -/
def dumpLoop (H : String → String) (g : Blockchain) (idx : Nat) :
    List BlockDump → Except PyErr Blockchain
  | [] => .ok g
  | d :: rest =>
    if idx = 0 then dumpLoop H g (idx + 1) rest
    else
      let block : Block :=
        { index := d.index, transactions := d.transactions, timestamp := d.timestamp,
          previous_hash := d.previous_hash, nonce := d.nonce, hash := none }
      match add_block H g block d.hash with
      | .error e => .error e
      | .ok (g2, added) =>
        if added then dumpLoop H g2 (idx + 1) rest
        else .error (.exception "The chain dump is tampered!!")

/-- Function `create_chain_from_dump` (lines 285-300): replay the dump against a fresh
genesis-only ledger. -/
def create_chain_from_dump (H : String → String) (chain_dump : List BlockDump) :
    Except PyErr Blockchain :=
  dumpLoop H (init_blockchain H) 0 chain_dump

/-- The serialisation of the genesis block content, checked against
`json.dumps({"index": 0, "nonce": 0, "previous_hash": "0", "timestamp": 0, "transactions": []}, sort_keys=True)`. -/
theorem serBlock_genesis :
    serBlock { index := 0, transactions := [], timestamp := 0, previous_hash := "0",
               nonce := 0, hash := none } =
      "\x7b\"index\": 0, \"nonce\": 0, \"previous_hash\": \"0\", \"timestamp\": 0, \"transactions\": []\x7d" := by
  decide

/-- The genesis digest of the running node. -/
theorem genesis_hash_value :
    (init_blockchain sha256hex).chain =
      [{ index := 0, transactions := [], timestamp := 0, previous_hash := "0", nonce := 0,
         hash := some "6dbf23122cb5046cc5c0c1b245c75f8e43c59ca8ffeac292715e5078e631d0c9" }] := by
  decide

/-! ## Concrete objects shared by several theorems -/

/-- A transaction as submitted through `/new_transaction`. -/
def txA : Tx := { author := "a", content := "hi", timestamp := 1 }

/-- A sealed head block whose admitted digest is the string "aa". -/
def blockA : Block :=
  { index := 0, transactions := [], timestamp := 0, previous_hash := "0", nonce := 0,
    hash := some "aa" }

/-- A degenerate digest primitive mapping every input to "00"; useful to
instantiate digest-generic theorems on inputs where the search is trivial. -/
def constDigest : String → String := fun _ => "00"

/-- The sealed genesis block of `init_blockchain constDigest`. -/
def gBlock00 : Block :=
  { index := 0, transactions := [], timestamp := 0, previous_hash := "0", nonce := 0,
    hash := some "00" }

/-! ## C2 -/

/-- C2: the claim says `check_chain_validity` returns a boolean — `false` at the
first failing block — without raising.  In this source the loop body reads
`block.hash` (raising AttributeError when the attribute is absent) and then
evaluates `cls.is_valid(block, block.hash)` although class `Blockchain` has no
attribute `is_valid` (its method is `is_valid_proof`), so every chain with at
least one block makes `check_chain_validity` raise instead of returning a
boolean. -/
theorem C2_check_chain_validity_raises (chain : List Block) (hne : chain ≠ []) :
    ∃ e, check_chain_validity chain = Except.error e := by
  match chain, hne with
  | block :: rest, _ =>
    cases hb : block.hash with
    | none =>
      exact ⟨PyErr.attributeError "Block object has no attribute hash", by
        simp [check_chain_validity, checkLoop, hb]⟩
    | some h =>
      exact ⟨PyErr.attributeError "type object Blockchain has no attribute is_valid", by
        simp [check_chain_validity, checkLoop, hb]⟩

/-- C2 witness: the node's own one-block genesis chain already makes
`check_chain_validity` raise. -/
theorem C2_check_chain_validity_raises_witness :
    ∃ e, check_chain_validity [blockA] = Except.error e :=
  C2_check_chain_validity_raises [blockA] (by decide)

/-! ## C1 -/

/-- C1: the claim says a `mine()` call whose internal admission fails leaves
`pendingTransactions` unchanged, and the pool is never cleared unconditionally.
In this source, lines 172-175 discard the result of `add_block`, reset
`unconfirmed_transactions = []` and return `True` regardless.  Concretely: with
the pool holding one transaction and a candidate whose `previous_hash` ("zz")
does not match the head digest ("aa") — the stale-candidate situation produced
by a consensus replacement during mining — `add_block` rejects with no state
change, yet the tail of `mine` still empties the pool and reports success. -/
theorem C1_pool_cleared_despite_rejection :
    add_block constDigest { unconfirmed_transactions := [txA], chain := [blockA] }
        { index := 1, transactions := [txA], timestamp := 2, previous_hash := "zz",
          nonce := 0, hash := none } "00" =
      Except.ok ({ unconfirmed_transactions := [txA], chain := [blockA] }, false) ∧
    mineAdmitAndClear constDigest { unconfirmed_transactions := [txA], chain := [blockA] }
        { index := 1, transactions := [txA], timestamp := 2, previous_hash := "zz",
          nonce := 0, hash := none } "00" =
      Except.ok ({ unconfirmed_transactions := [], chain := [blockA] }, true) :=
  ⟨rfl, rfl⟩

/-! ## C3 -/

/-- C3: the claim says `consensus` replaces the local ledger with the
reconstructed ledger of the longest valid strictly-longer snapshot, and
otherwise leaves it unchanged.  In this source, any strictly longer non-empty
candidate sends the loop into `check_chain_validity`, which raises
AttributeError (it calls the nonexistent `cls.is_valid`), so `consensus` raises
instead of replacing; snapshots no longer than the local chain are skipped and
leave the ledger unchanged (second conjunct).  Reconstruction
(`create_chain_from_dump`) is never invoked, and the assignment on line 350
would install the raw dump list, not a ledger. -/
theorem C3_consensus_raises_on_longer_candidate :
    consensus (init_blockchain constDigest) [(2, [blockA, blockA])] =
      Except.error (.attributeError "type object Blockchain has no attribute is_valid") ∧
    consensus (init_blockchain constDigest) [(1, [blockA])] =
      Except.ok (.ledger (init_blockchain constDigest), false) :=
  ⟨rfl, rfl⟩

/-! ## C7 -/

/-- C7: for every ledger whose head carries an admitted digest, a candidate whose
`previous_hash` differs from that digest is rejected by `add_block` at the
linkage check — the first of the two checks, reached before the proof is even
looked at, so in particular also when the supplied digest satisfies the
difficulty and recomputation checks — and the returned state is the input
ledger itself: chain and pending pool are untouched.  The source signals every
rejection as the bare `False` (the `LinkageMismatch` reason of the spec's
taxonomy is this first check). -/
theorem C7_linkage_mismatch_rejects_without_mutation (H : String → String)
    (b : Blockchain) (block : Block) (proof : String) (lb : Block) (hd : String)
    (hlast : b.chain.getLast? = some lb) (hhash : lb.hash = some hd)
    (hmm : block.previous_hash ≠ hd) :
    add_block H b block proof = Except.ok (b, false) := by
  simp only [add_block, last_block, hlast, hhash]
  rw [if_pos (Ne.symm hmm)]

/-- C7 witness: a concrete rejection, with a digest ("00") that the degenerate
primitive `constDigest` makes independently admissible. -/
theorem C7_linkage_mismatch_witness :
    add_block constDigest { unconfirmed_transactions := [], chain := [blockA] }
        { index := 1, transactions := [], timestamp := 2, previous_hash := "zz",
          nonce := 0, hash := none } "00" =
      Except.ok ({ unconfirmed_transactions := [], chain := [blockA] }, false) :=
  C7_linkage_mismatch_rejects_without_mutation constDigest _ _ _ blockA "aa" rfl rfl
    (by decide)

/-! ## C8 -/

/-- C8 counterexample: the claim says `is_valid_proof` holds only for the
recomputed digest of the block **with the hash field excluded**, for every
block.  `compute_hash` serialises `self.__dict__`, so for a block whose `hash`
attribute is assigned the recomputation *includes* the stored hash.  At this
concrete block (hash attribute "deadbeef", nonce 723 found so that the
including-hash sha256 digest meets the difficulty), `is_valid_proof` accepts a
digest that differs from the hash-excluded content digest. -/
theorem C8_counterexample :
    is_valid_proof sha256hex
        { index := 1, transactions := [], timestamp := 0, previous_hash := "0",
          nonce := 723, hash := some "deadbeef" }
        "009be4aaab0e0cb2bcd2d5258f578333e1dce4a9967f992f11eb289f8809232d" = true ∧
      "009be4aaab0e0cb2bcd2d5258f578333e1dce4a9967f992f11eb289f8809232d" ≠
        compute_hash sha256hex
          { index := 1, transactions := [], timestamp := 0, previous_hash := "0",
            nonce := 723, hash := none } := by
  constructor
  · decide
  · decide

/-- C8 (amended): for every block whose `hash` attribute is unset — which is the
case for every block the admission paths hand to `is_valid_proof`, since
`Block.__init__` never sets it — the predicate returns `true` iff the claimed
digest meets the difficulty target and equals the independently recomputed
content digest (which then indeed excludes `hash`); a caller-supplied digest
alone never suffices.  When `hash` is set, the recomputation includes the
stored hash field (see the counterexample). -/
theorem C8_is_valid_proof_iff (H : String → String) (block : Block) (d : String)
    (hnone : block.hash = none) :
    is_valid_proof H block d = true ↔
      (py_startswith d zeros = true ∧ d = compute_hash H { block with hash := none }) := by
  cases block with
  | mk i t ts ph n hs =>
    cases hnone
    simp [is_valid_proof, Bool.and_eq_true, decide_eq_true_iff]

/-- C8 witness: the amended equivalence instantiated at a concrete hash-free
block and digest. -/
theorem C8_is_valid_proof_iff_witness :
    is_valid_proof constDigest
        { index := 1, transactions := [], timestamp := 2, previous_hash := "aa",
          nonce := 0, hash := none } "00" = true ↔
      (py_startswith "00" zeros = true ∧
        "00" = compute_hash constDigest
          { index := 1, transactions := [], timestamp := 2, previous_hash := "aa",
            nonce := 0, hash := none }) :=
  C8_is_valid_proof_iff constDigest _ "00" rfl

/-! ## C5 -/

/-- C5 counterexample: the claim says a block whose `hash` attribute has been
assigned yields the same content digest as the identical block without it.
`compute_hash` digests `json.dumps(self.__dict__, sort_keys=True)`, which
contains a `"hash"` entry once the attribute is assigned: at the genesis block
(hash assigned to its admitted digest, exactly as `create_genesis_block`
leaves it) the two sha256 digests differ. -/
theorem C5_counterexample :
    compute_hash sha256hex
        { index := 0, transactions := [], timestamp := 0, previous_hash := "0", nonce := 0,
          hash := some "6dbf23122cb5046cc5c0c1b245c75f8e43c59ca8ffeac292715e5078e631d0c9" } ≠
      compute_hash sha256hex
        { index := 0, transactions := [], timestamp := 0, previous_hash := "0", nonce := 0,
          hash := none } := by
  decide

/-- C5 (amended): `compute_hash` digests every attribute currently present on
the block object.  With `hash` unset the serialised input covers exactly index,
transactions, timestamp, previousHash and nonce; once `hash` is assigned the
serialised input additionally contains the `hash` entry and is a strictly
longer string, so it always differs from the hash-free content serialisation
(and at the genesis block the sha256 digests themselves differ — see the
counterexample). -/
theorem C5_hash_attr_changes_digest_input (b : Block) (h : String) :
    serBlock { b with hash := some h } ≠ serBlock { b with hash := none } := by
  intro heq
  have hlen := congrArg String.length heq
  cases b with
  | mk i t ts ph n hs =>
    simp only [serBlock, serStr, String.length_append] at hlen
    have e1 : ("\x7b\"hash\": " : String).length = 9 := rfl
    have e2 : (", \"index\": " : String).length = 11 := rfl
    have e3 : ("\x7b\"index\": " : String).length = 10 := rfl
    have e4 : ("\"" : String).length = 1 := rfl
    simp only [e1, e2, e3, e4] at hlen
    omega

/-- C5 witness: the serialisation inequality at the genesis content with an
arbitrary assigned hash. -/
theorem C5_hash_attr_changes_digest_input_witness :
    serBlock { genesisBlock with hash := some "x" } ≠
      serBlock { genesisBlock with hash := none } :=
  C5_hash_attr_changes_digest_input genesisBlock "x"

/-! ## Shared inversion and soundness lemmas -/

/-- Rewriting a block's nonce to its own nonce is the identity. -/
theorem Block.eta_nonce (b : Block) : { b with nonce := b.nonce } = b := by
  cases b
  rfl

/-- Inversion for a non-raising `add_block` call: either it rejected and
returned the ledger unchanged with `False`, or it accepted a valid proof for a
non-empty chain and appended the sealed block. -/
theorem add_block_ok_inv (H : String → String) (b : Blockchain) (block : Block)
    (proof : String) (b2 : Blockchain) (r : Bool)
    (h : add_block H b block proof = Except.ok (b2, r)) :
    (b2 = b ∧ r = false) ∨
      (r = true ∧ is_valid_proof H block proof = true ∧
        b2 = { b with chain := b.chain ++ [{ block with hash := some proof }] } ∧
        b.chain ≠ []) := by
  unfold add_block last_block at h
  cases hl : b.chain.getLast? with
  | none => rw [hl] at h; exact absurd h (by simp)
  | some lb =>
    rw [hl] at h
    dsimp only at h
    cases hh : lb.hash with
    | none => rw [hh] at h; exact absurd h (by simp)
    | some ph =>
      rw [hh] at h
      dsimp only at h
      by_cases hne : ph ≠ block.previous_hash
      · rw [if_pos hne] at h
        injection h with h
        injection h with h1 h2
        exact Or.inl ⟨h1.symm, h2.symm⟩
      · rw [if_neg hne] at h
        by_cases hv : is_valid_proof H block proof = false
        · rw [if_pos hv] at h
          injection h with h
          injection h with h1 h2
          exact Or.inl ⟨h1.symm, h2.symm⟩
        · rw [if_neg hv] at h
          injection h with h
          injection h with h1 h2
          refine Or.inr ⟨h2.symm, by simpa using hv, h1.symm, ?_⟩
          intro he
          rw [he] at hl
          exact absurd hl (by simp)

/-- With a head block carrying a `hash` attribute, `add_block` cannot raise. -/
theorem add_block_no_error (H : String → String) (b : Blockchain) (block : Block)
    (proof : String) (lb : Block) (hd : String)
    (hlast : b.chain.getLast? = some lb) (hh : lb.hash = some hd) :
    ∃ b2 r, add_block H b block proof = Except.ok (b2, r) := by
  unfold add_block last_block
  rw [hlast]
  dsimp only
  rw [hh]
  dsimp only
  by_cases hne : hd ≠ block.previous_hash
  · exact ⟨b, false, by rw [if_pos hne]⟩
  · rw [if_neg hne]
    by_cases hv : is_valid_proof H block proof = false
    · exact ⟨b, false, by rw [if_pos hv]⟩
    · exact ⟨_, true, by rw [if_neg hv]⟩

/-- Soundness of the proof-of-work loop when entered, as the source enters it,
with the digest of the current block: on termination the returned digest is the
digest of the returned block, meets the target, only the nonce was changed (it
only grew), and every skipped nonce fails the target. -/
theorem powLoop_sound (H : String → String) :
    ∀ (fuel : Nat) (blk nb : Block) (pf : String),
      powLoop H fuel blk (compute_hash H blk) = some (nb, pf) →
      pf = compute_hash H nb ∧ py_startswith pf zeros = true ∧
        nb = { blk with nonce := nb.nonce } ∧ blk.nonce ≤ nb.nonce ∧
        ∀ m, blk.nonce ≤ m → m < nb.nonce →
          py_startswith (compute_hash H { blk with nonce := m }) zeros = false := by
  intro fuel
  induction fuel with
  | zero => intro blk nb pf h; exact absurd h (by simp [powLoop])
  | succ fuel ih =>
    intro blk nb pf h
    rw [powLoop] at h
    by_cases hs : py_startswith (compute_hash H blk) zeros = true
    · rw [if_pos hs] at h
      injection h with h
      injection h with h1 h2
      subst h1; subst h2
      refine ⟨rfl, hs, (Block.eta_nonce blk).symm, Nat.le_refl _, ?_⟩
      intro m hm1 hm2
      exact absurd (Nat.lt_of_le_of_lt hm1 hm2) (Nat.lt_irrefl _)
    · rw [if_neg hs] at h
      obtain ⟨h1, h2, h3, h4, h5⟩ := ih { blk with nonce := blk.nonce + 1 } nb pf h
      refine ⟨h1, h2, h3, Nat.le_of_succ_le h4, ?_⟩
      intro m hm1 hm2
      rcases Nat.lt_or_ge m (blk.nonce + 1) with hlt | hge
      · have hmeq : m = blk.nonce := Nat.le_antisymm (Nat.lt_succ_iff.mp hlt) hm1
        subst hmeq
        rw [Block.eta_nonce blk]
        exact Bool.not_eq_true _ ▸ (by simpa using hs)
      · exact h5 m hge hm2

/-- Completeness of the proof-of-work loop: if some nonce at or above the
current one meets the target, the loop terminates within the corresponding
fuel. -/
theorem powLoop_complete (H : String → String) :
    ∀ (d : Nat) (blk : Block),
      py_startswith (compute_hash H { blk with nonce := blk.nonce + d }) zeros = true →
      ∃ nb pf, powLoop H (d + 1) blk (compute_hash H blk) = some (nb, pf) := by
  intro d
  induction d with
  | zero =>
    intro blk hs
    simp only [Nat.add_zero] at hs
    have hs2 : py_startswith (compute_hash H blk) zeros = true := hs
    exact ⟨blk, compute_hash H blk, by rw [powLoop, if_pos hs2]⟩
  | succ d ih =>
    intro blk hs
    by_cases h0 : py_startswith (compute_hash H blk) zeros = true
    · exact ⟨blk, compute_hash H blk, by rw [powLoop, if_pos h0]⟩
    · have hstep : py_startswith
          (compute_hash H { { blk with nonce := blk.nonce + 1 } with
            nonce := { blk with nonce := blk.nonce + 1 }.nonce + d }) zeros = true := by
        show py_startswith (compute_hash H { blk with nonce := blk.nonce + 1 + d }) zeros = true
        have : blk.nonce + 1 + d = blk.nonce + (d + 1) := by omega
        rw [this]
        exact hs
      obtain ⟨nb, pf, hp⟩ := ih { blk with nonce := blk.nonce + 1 } hstep
      refine ⟨nb, pf, ?_⟩
      rw [powLoop, if_neg h0]
      exact hp

/-- Specification of `proof_of_work` derived from the loop lemmas: if an
admissible nonce exists for the candidate, then for some fuel the search
returns the candidate mutated to the least admissible nonce together with its
digest. -/
theorem proof_of_work_spec (H : String → String) (blk : Block)
    (hex : ∃ n, py_startswith (compute_hash H { blk with nonce := n }) zeros = true) :
    ∃ fuel nb pf, proof_of_work H fuel blk = some (nb, pf) ∧
      pf = compute_hash H nb ∧ py_startswith pf zeros = true ∧
      nb = { blk with nonce := nb.nonce } ∧
      ∀ m, m < nb.nonce →
        py_startswith (compute_hash H { blk with nonce := m }) zeros = false := by
  obtain ⟨n, hn⟩ := hex
  have hn0 : py_startswith
      (compute_hash H { { blk with nonce := 0 } with
        nonce := { blk with nonce := 0 }.nonce + n }) zeros = true := by
    show py_startswith (compute_hash H { blk with nonce := 0 + n }) zeros = true
    rw [Nat.zero_add]
    exact hn
  obtain ⟨nb, pf, hp⟩ := powLoop_complete H n { blk with nonce := 0 } hn0
  obtain ⟨h1, h2, h3, _h4, h5⟩ := powLoop_sound H (n + 1) { blk with nonce := 0 } nb pf hp
  refine ⟨n + 1, nb, pf, hp, h1, h2, h3, ?_⟩
  intro m hm
  have := h5 m (Nat.zero_le m) hm
  simpa using this

/-- Specification of the dump-replay loop from a non-genesis position with a
well-headed accumulator: the only exception it raises itself is the tampered
signal, and a successful replay admits every remaining entry. -/
theorem dumpLoop_spec (H : String → String) (ds : List BlockDump) :
    ∀ (g : Blockchain) (idx : Nat), idx ≠ 0 →
      (∃ lb hd, g.chain.getLast? = some lb ∧ lb.hash = some hd) →
      (∀ e, dumpLoop H g idx ds = Except.error e →
        e = PyErr.exception "The chain dump is tampered!!") ∧
      (∀ g2, dumpLoop H g idx ds = Except.ok g2 →
        g2.chain.length = g.chain.length + ds.length) := by
  induction ds with
  | nil =>
    intro g idx _ _
    constructor
    · intro e he
      simp [dumpLoop] at he
    · intro g2 hg2
      simp only [dumpLoop] at hg2
      injection hg2 with hg2
      rw [← hg2]
      simp
  | cons d rest ih =>
    intro g idx hidx hhead
    obtain ⟨lb, hd, hlast, hh⟩ := hhead
    obtain ⟨b2, r, hab⟩ := add_block_no_error H g
      { index := d.index, transactions := d.transactions, timestamp := d.timestamp,
        previous_hash := d.previous_hash, nonce := d.nonce, hash := none } d.hash lb hd hlast hh
    rcases add_block_ok_inv H g _ d.hash b2 r hab with ⟨hb2, hr⟩ | ⟨hr, _hv, hb2, _hne⟩
    · subst hb2; subst hr
      constructor
      · intro e he
        simp only [dumpLoop, if_neg hidx] at he
        rw [hab] at he
        dsimp only at he
        injection he with he
        exact he.symm
      · intro g2 hg2
        simp only [dumpLoop, if_neg hidx] at hg2
        rw [hab] at hg2
        dsimp only at hg2
        exact absurd hg2 (by simp)
    · subst hr; subst hb2
      have hrec := ih
        { unconfirmed_transactions := g.unconfirmed_transactions,
          chain := g.chain ++
            [{ index := d.index, transactions := d.transactions, timestamp := d.timestamp,
               previous_hash := d.previous_hash, nonce := d.nonce, hash := some d.hash }] }
        (idx + 1) (Nat.succ_ne_zero idx)
        ⟨{ index := d.index, transactions := d.transactions, timestamp := d.timestamp,
           previous_hash := d.previous_hash, nonce := d.nonce, hash := some d.hash },
         d.hash, by simp, rfl⟩
      constructor
      · intro e he
        simp only [dumpLoop, if_neg hidx] at he
        rw [hab] at he
        dsimp only at he
        exact hrec.1 e he
      · intro g2 hg2
        simp only [dumpLoop, if_neg hidx] at hg2
        rw [hab] at hg2
        dsimp only at hg2
        have := hrec.2 g2 hg2
        simp only [List.length_append, List.length_cons, List.length_nil] at this ⊢
        omega

/-! ## C4 -/

/-- The genesis entry of a serialised chain dump of the running node. -/
def genesisDump : BlockDump :=
  { index := 0, transactions := [], timestamp := 0, previous_hash := "0", nonce := 0,
    hash := "6dbf23122cb5046cc5c0c1b245c75f8e43c59ca8ffeac292715e5078e631d0c9" }

/-- A genuinely mined block-1 dump entry: nonce 188 makes its sha256 content
digest start with "00" and its `previous_hash` is the genesis digest. -/
def validBlock1 : BlockDump :=
  { index := 1, transactions := [{ author := "a", content := "hi", timestamp := 1 }],
    timestamp := 2,
    previous_hash := "6dbf23122cb5046cc5c0c1b245c75f8e43c59ca8ffeac292715e5078e631d0c9",
    nonce := 188,
    hash := "008462e7a654dfecf80da5abc61713833a7f99531418fc237f53de4e6408754f" }

/-- Dump entry `validBlock1` with one character of its transaction content flipped
("hi" to "hj") and the stored `hash` left untouched — the spec's Scenario D. -/
def tamperedBlock1 : BlockDump :=
  { index := 1, transactions := [{ author := "a", content := "hj", timestamp := 1 }],
    timestamp := 2,
    previous_hash := "6dbf23122cb5046cc5c0c1b245c75f8e43c59ca8ffeac292715e5078e631d0c9",
    nonce := 188,
    hash := "008462e7a654dfecf80da5abc61713833a7f99531418fc237f53de4e6408754f" }

/-- C4 counterexample: the claim says that on a dump with a failing non-genesis
admission `reconstructLedger` returns the recoverable outcome `TamperedChain`
to its caller rather than raising.  The source instead executes
`raise Exception("The chain dump is tampered!!")` (line 299), modelled as the
propagating error value: on the Scenario-D dump (second conjunct shows the
untampered dump replays fine, so the flip alone causes the failure) the
function raises; no caller catches it, so it unwinds `register_with_existing_node`. -/
theorem C4_counterexample :
    create_chain_from_dump sha256hex [genesisDump, tamperedBlock1] =
      Except.error (PyErr.exception "The chain dump is tampered!!") ∧
    create_chain_from_dump sha256hex [genesisDump, validBlock1] =
      Except.ok
        { unconfirmed_transactions := [],
          chain :=
            [{ index := 0, transactions := [], timestamp := 0, previous_hash := "0", nonce := 0,
               hash := some "6dbf23122cb5046cc5c0c1b245c75f8e43c59ca8ffeac292715e5078e631d0c9" },
             { index := 1, transactions := [{ author := "a", content := "hi", timestamp := 1 }],
               timestamp := 2,
               previous_hash := "6dbf23122cb5046cc5c0c1b245c75f8e43c59ca8ffeac292715e5078e631d0c9",
               nonce := 188,
               hash := some "008462e7a654dfecf80da5abc61713833a7f99531418fc237f53de4e6408754f" }] } :=
  ⟨rfl, rfl⟩

/-- C4 (amended): any non-genesis admission failure aborts reconstruction by
raising `Exception("The chain dump is tampered!!")` — the only exception
`create_chain_from_dump` itself raises — modelled as an error result; no
partially reconstructed ledger is ever returned (a successful replay admits
every non-genesis entry), and the function only builds a fresh ledger, so the
caller's ledger is untouched either way. -/
theorem C4_dump_admission_failure_raises (H : String → String) (dump : List BlockDump) :
    (∀ e, create_chain_from_dump H dump = Except.error e →
      e = PyErr.exception "The chain dump is tampered!!") ∧
    (∀ g, create_chain_from_dump H dump = Except.ok g →
      g.chain.length = max dump.length 1) := by
  cases dump with
  | nil =>
    constructor
    · intro e he
      simp [create_chain_from_dump, dumpLoop] at he
    · intro g hg
      simp only [create_chain_from_dump, dumpLoop] at hg
      injection hg with hg
      rw [← hg]
      simp [init_blockchain, create_genesis_block, Blockchain.new]
  | cons d rest =>
    have hspec := dumpLoop_spec H rest (init_blockchain H) 1 (Nat.succ_ne_zero 0)
      ⟨{ index := 0, transactions := [], timestamp := 0, previous_hash := "0", nonce := 0,
         hash := some (compute_hash H
           { index := 0, transactions := [], timestamp := 0, previous_hash := "0",
             nonce := 0, hash := none }) },
       compute_hash H
         { index := 0, transactions := [], timestamp := 0, previous_hash := "0",
           nonce := 0, hash := none },
       by simp [init_blockchain, create_genesis_block, Blockchain.new], rfl⟩
    have hstep : create_chain_from_dump H (d :: rest) =
        dumpLoop H (init_blockchain H) 1 rest := by
      simp [create_chain_from_dump, dumpLoop]
    constructor
    · intro e he
      rw [hstep] at he
      exact hspec.1 e he
    · intro g hg
      rw [hstep] at hg
      have := hspec.2 g hg
      have hlen : (init_blockchain H).chain.length = 1 := by
        simp [init_blockchain, create_genesis_block, Blockchain.new]
      rw [hlen] at this
      simp only [List.length_cons]
      omega

/-! ## C6 -/

/-- Ledger states reachable from node startup by the three mutating operations
of the claim.  `admitted` models the externally exposed admission
(`/add_block`, lines 306-321, and the dump replay, lines 291-297), which always
constructs the candidate through `Block(...)` — a constructor that never sets
the `hash` attribute — before calling `add_block`. -/
inductive Reachable (H : String → String) : Blockchain → Prop where
  | init : Reachable H (init_blockchain H)
  | queue (b : Blockchain) (t : Tx) :
      Reachable H b → Reachable H (add_new_transaction b t)
  | mined (b : Blockchain) (fuel ts : Nat) (b2 : Blockchain) (r : Bool) :
      Reachable H b → mine H fuel ts b = some (Except.ok (b2, r)) → Reachable H b2
  | admitted (b : Blockchain) (bi : Nat) (txs : List Tx) (bts : Nat) (ph : String)
      (nn : Nat) (proof : String) (b2 : Blockchain) (r : Bool) :
      Reachable H b →
      add_block H b
        { index := bi, transactions := txs, timestamp := bts, previous_hash := ph,
          nonce := nn, hash := none } proof = Except.ok (b2, r) →
      Reachable H b2

/-- Chain-level inversion of a non-raising `mine` call: the chain is unchanged,
or a hash-free candidate with a valid proof was sealed and appended. -/
theorem mine_ok_chain (H : String → String) (fuel ts : Nat) (b b2 : Blockchain) (r : Bool)
    (h : mine H fuel ts b = some (Except.ok (b2, r))) :
    b2.chain = b.chain ∨
      ∃ nb pf, nb.hash = none ∧ is_valid_proof H nb pf = true ∧
        b2.chain = b.chain ++ [{ nb with hash := some pf }] ∧ b.chain ≠ [] := by
  unfold mine at h
  by_cases he : b.unconfirmed_transactions = []
  · rw [if_pos he] at h
    injection h with h
    injection h with h
    injection h with h1 _h2
    left
    rw [← h1]
  · rw [if_neg he] at h
    unfold last_block at h
    cases hl : b.chain.getLast? with
    | none =>
      rw [hl] at h
      dsimp only at h
      exact absurd h (by simp)
    | some lb =>
      rw [hl] at h
      dsimp only at h
      cases hh : lb.hash with
      | none =>
        rw [hh] at h
        dsimp only at h
        exact absurd h (by simp)
      | some lbh =>
        rw [hh] at h
        dsimp only at h
        cases hpw : proof_of_work H fuel
            { index := lb.index + 1, transactions := b.unconfirmed_transactions,
              timestamp := ts, previous_hash := lbh, nonce := 0, hash := none } with
        | none =>
          rw [hpw] at h
          exact absurd h (by simp)
        | some p =>
          obtain ⟨nb, pf⟩ := p
          rw [hpw] at h
          dsimp only at h
          injection h with h
          unfold mineAdmitAndClear at h
          cases hab : add_block H b nb pf with
          | error e =>
            rw [hab] at h
            exact absurd h (by simp)
          | ok p2 =>
            obtain ⟨b3, added⟩ := p2
            rw [hab] at h
            dsimp only at h
            injection h with h
            injection h with h1 _h2
            unfold proof_of_work at hpw
            dsimp only at hpw
            obtain ⟨_, _, hnb, _, _⟩ := powLoop_sound H fuel _ nb pf hpw
            have hnone : nb.hash = none := by rw [hnb]
            rcases add_block_ok_inv H b nb pf b3 added hab with ⟨hb3, _⟩ | ⟨_, hval, hb3, hcne⟩
            · left
              rw [← h1, hb3]
            · right
              exact ⟨nb, pf, hnone, hval, by rw [← h1, hb3], hcne⟩

/-- Appending an accepted, hash-free, valid-proof candidate to a chain
preserves the per-position digest invariant; the new position is positive, so
its difficulty obligation follows from the accepted proof. -/
theorem chainInv_append (H : String → String) (cs : List Block) (blk : Block) (pf : String)
    (hinv : ∀ i bi, cs[i]? = some bi →
      ∃ hs, bi.hash = some hs ∧ hs = compute_hash H { bi with hash := none } ∧
        (0 < i → py_startswith hs zeros = true))
    (hnone : blk.hash = none) (hval : is_valid_proof H blk pf = true) (_hcne : cs ≠ []) :
    ∀ i bi, (cs ++ [{ blk with hash := some pf }])[i]? = some bi →
      ∃ hs, bi.hash = some hs ∧ hs = compute_hash H { bi with hash := none } ∧
        (0 < i → py_startswith hs zeros = true) := by
  intro i bi hget
  have hval2 : py_startswith pf zeros = true ∧ pf = compute_hash H blk := by
    unfold is_valid_proof at hval
    simp only [Bool.and_eq_true, decide_eq_true_eq] at hval
    exact hval
  by_cases hi : i < cs.length
  · rw [List.getElem?_append_left hi] at hget
    exact hinv i bi hget
  · have hlen : i < (cs ++ [{ blk with hash := some pf }]).length := by
      rcases List.getElem?_eq_some.mp hget with ⟨hl, _⟩
      exact hl
    rw [List.length_append, List.length_cons, List.length_nil] at hlen
    have hieq : i = cs.length := by omega
    subst hieq
    rw [List.getElem?_append_right (Nat.le_refl _), Nat.sub_self] at hget
    injection hget with hget
    have hbi : bi = { blk with hash := some pf } := hget.symm
    subst hbi
    refine ⟨pf, rfl, ?_, ?_⟩
    · show pf = compute_hash H { blk with hash := none }
      have hbn : ({ blk with hash := none } : Block) = blk := by
        cases blk with
        | mk i2 t2 ts2 ph2 n2 hs2 =>
          have h2 : hs2 = none := hnone
          rw [h2]
      rw [hbn]
      exact hval2.2
    · intro _
      exact hval2.1

/-- C6 (amended): every ledger reachable from startup by queueing, mining and
admission has, at every chain position `i`, a block whose stored `hash` equals
the freshly recomputed content digest of the block with the `hash` attribute
excluded, and for every position `i > 0` that digest meets the difficulty
target.  The genesis position 0 carries its correct content digest but — the
source seals it without any difficulty check — no leading-zero guarantee (the
counterexample shows the running node's genesis digest fails it). -/
theorem C6_reachable_chain_invariant (H : String → String) (b : Blockchain)
    (hr : Reachable H b) :
    ∀ i blk, b.chain[i]? = some blk →
      ∃ hs, blk.hash = some hs ∧ hs = compute_hash H { blk with hash := none } ∧
        (0 < i → py_startswith hs zeros = true) := by
  induction hr with
  | init =>
    intro i blk hget
    cases i with
    | zero =>
      have h0 : (init_blockchain H).chain[0]? = some (sealedGenesis H) := rfl
      rw [h0] at hget
      injection hget with hget
      refine ⟨compute_hash H genesisBlock, ?_, ?_, ?_⟩
      · rw [← hget]
        rfl
      · rw [← hget]
        rfl
      · intro hc
        exact absurd hc (by decide)
    | succ n =>
      have h1 : (init_blockchain H).chain[n + 1]? = none := rfl
      rw [h1] at hget
      exact absurd hget (by simp)
  | queue b t _ ih =>
    intro i blk hget
    exact ih i blk hget
  | mined b fuel ts b2 r _ hmine ih =>
    rcases mine_ok_chain H fuel ts b b2 r hmine with hsame | ⟨nb, pf, hnone, hval, happ, hcne⟩
    · intro i blk hget
      rw [hsame] at hget
      exact ih i blk hget
    · intro i blk hget
      rw [happ] at hget
      exact chainInv_append H b.chain nb pf ih hnone hval hcne i blk hget
  | admitted b bi txs bts ph nn proof b2 r _ hadd ih =>
    rcases add_block_ok_inv H b _ proof b2 r hadd with ⟨hb2, _⟩ | ⟨_, hval, hb2, hcne⟩
    · intro i blk hget
      rw [hb2] at hget
      exact ih i blk hget
    · intro i blk hget
      rw [hb2] at hget
      exact chainInv_append H b.chain _ proof ih rfl hval hcne i blk hget

/-- C6 counterexample: the claim requires the difficulty prefix at **every**
position including the genesis block.  The startup state is reachable, its
position-0 block is the sealed genesis, and its admitted sha256 digest does not
start with the two required zeros (`create_genesis_block` seals the genesis
without any difficulty check). -/
theorem C6_counterexample :
    Reachable sha256hex (init_blockchain sha256hex) ∧
    (init_blockchain sha256hex).chain[0]? =
      some { index := 0, transactions := [], timestamp := 0, previous_hash := "0", nonce := 0,
             hash := some "6dbf23122cb5046cc5c0c1b245c75f8e43c59ca8ffeac292715e5078e631d0c9" } ∧
    py_startswith "6dbf23122cb5046cc5c0c1b245c75f8e43c59ca8ffeac292715e5078e631d0c9" zeros
      = false :=
  ⟨Reachable.init, rfl, by decide⟩

/-- C6 witness: the amended invariant evaluated at the startup ledger of the
degenerate digest, position 0. -/
theorem C6_reachable_chain_invariant_witness :
    ∃ hs, gBlock00.hash = some hs ∧
      hs = compute_hash constDigest { gBlock00 with hash := none } ∧
      (0 < 0 → py_startswith hs zeros = true) :=
  C6_reachable_chain_invariant constDigest (init_blockchain constDigest) Reachable.init
    0 gBlock00 rfl

/-! ## C9 -/

/-- C9: whenever some admissible nonce exists for a candidate block, the
brute-force search of `proof_of_work` terminates (for sufficient fuel — the
source loops unboundedly) having mutated exactly the candidate's nonce, in
place, to the **least** admissible value: every smaller nonce yields a digest
missing the difficulty target, the returned digest is `compute_hash` of the
block in its final state, and the returned pair always passes
`is_valid_proof`. -/
theorem C9_proof_of_work_least_nonce (H : String → String) (blk : Block)
    (hex : ∃ n, py_startswith (compute_hash H { blk with nonce := n }) zeros = true) :
    ∃ fuel nb pf, proof_of_work H fuel blk = some (nb, pf) ∧
      nb = { blk with nonce := nb.nonce } ∧
      pf = compute_hash H nb ∧
      py_startswith pf zeros = true ∧
      (∀ m, m < nb.nonce →
        py_startswith (compute_hash H { blk with nonce := m }) zeros = false) ∧
      is_valid_proof H nb pf = true := by
  obtain ⟨fuel, nb, pf, hp, h1, h2, h3, h5⟩ := proof_of_work_spec H blk hex
  refine ⟨fuel, nb, pf, hp, h3, h1, h2, h5, ?_⟩
  unfold is_valid_proof
  rw [h2, ← h1]
  simp

/-- C9 witness: under the degenerate digest `constDigest` every nonce is
admissible, so nonce 0 is found at once for this candidate. -/
theorem C9_proof_of_work_least_nonce_witness :
    ∃ fuel nb pf, proof_of_work constDigest fuel
        { index := 1, transactions := [txA], timestamp := 2, previous_hash := "aa",
          nonce := 5, hash := none } = some (nb, pf) ∧
      nb = { index := 1, transactions := [txA], timestamp := 2, previous_hash := "aa",
             nonce := nb.nonce, hash := none } ∧
      pf = compute_hash constDigest nb ∧
      py_startswith pf zeros = true ∧
      (∀ m, m < nb.nonce →
        py_startswith (compute_hash constDigest
          { index := 1, transactions := [txA], timestamp := 2, previous_hash := "aa",
            nonce := m, hash := none }) zeros = false) ∧
      is_valid_proof constDigest nb pf = true :=
  C9_proof_of_work_least_nonce constDigest
    { index := 1, transactions := [txA], timestamp := 2, previous_hash := "aa",
      nonce := 5, hash := none } ⟨0, by decide⟩

/-! ## C10 -/

/-- C10: in the sequential embedding `mine` fails exactly on an empty pool.
First conjunct: an empty pool returns `False` with no state change, for any
fuel.  Second conjunct: with a non-empty pool and a head block carrying an
admitted digest (as every reachable ledger has), whenever the proof-of-work
search can succeed at all, `mine` terminates for some fuel, the internally
constructed candidate (`index = head.index + 1`, `previousHash = head.hash`,
the snapshotted pool as transactions) is **accepted** by the internal
`add_block` — the admission never rejects sequentially — and `mine` returns
`True` with the sealed block appended and the pool cleared. -/
theorem C10_mine_succeeds_iff_pending (H : String → String) (ts : Nat) (b : Blockchain) :
    (∀ fuel, b.unconfirmed_transactions = [] →
      mine H fuel ts b = some (Except.ok (b, false))) ∧
    (∀ lb lbh, b.chain.getLast? = some lb → lb.hash = some lbh →
      b.unconfirmed_transactions ≠ [] →
      (∃ n, py_startswith (compute_hash H
          { index := lb.index + 1, transactions := b.unconfirmed_transactions,
            timestamp := ts, previous_hash := lbh, nonce := n, hash := none }) zeros = true) →
      ∃ fuel nb pf,
        proof_of_work H fuel
          { index := lb.index + 1, transactions := b.unconfirmed_transactions,
            timestamp := ts, previous_hash := lbh, nonce := 0, hash := none } = some (nb, pf) ∧
        add_block H b nb pf =
          Except.ok ({ unconfirmed_transactions := b.unconfirmed_transactions,
                       chain := b.chain ++ [{ nb with hash := some pf }] }, true) ∧
        mine H fuel ts b =
          some (Except.ok ({ unconfirmed_transactions := [],
                             chain := b.chain ++ [{ nb with hash := some pf }] }, true))) := by
  constructor
  · intro fuel he
    simp [mine, he]
  · intro lb lbh hlast hh hne hex
    obtain ⟨fuel, nb, pf, hp, h1, h2, h3, _⟩ := proof_of_work_spec H
      { index := lb.index + 1, transactions := b.unconfirmed_transactions,
        timestamp := ts, previous_hash := lbh, nonce := 0, hash := none } hex
    have hnbph : nb.previous_hash = lbh := by rw [h3]
    have hvalid : is_valid_proof H nb pf = true := by
      unfold is_valid_proof
      rw [h2, ← h1]
      simp
    have hadd : add_block H b nb pf =
        Except.ok ({ unconfirmed_transactions := b.unconfirmed_transactions,
                     chain := b.chain ++ [{ nb with hash := some pf }] }, true) := by
      unfold add_block last_block
      rw [hlast]
      dsimp only
      rw [hh]
      dsimp only
      rw [if_neg (by rw [hnbph]; simp), if_neg (by rw [hvalid]; simp)]
    have hmine : mine H fuel ts b =
        some (Except.ok ({ unconfirmed_transactions := [],
                           chain := b.chain ++ [{ nb with hash := some pf }] }, true)) := by
      unfold mine last_block
      rw [if_neg hne, hlast]
      dsimp only
      rw [hh]
      dsimp only
      rw [hp]
      dsimp only
      unfold mineAdmitAndClear
      rw [hadd]
    exact ⟨fuel, nb, pf, hp, hadd, hmine⟩

/-- C10 witness: the empty-pool no-op at the fresh ledger, and a full successful
mining pass from a one-transaction pool under `constDigest`. -/
theorem C10_mine_succeeds_iff_pending_witness :
    mine constDigest 3 7 (init_blockchain constDigest) =
      some (Except.ok (init_blockchain constDigest, false)) ∧
    ∃ fuel nb pf,
      proof_of_work constDigest fuel
        { index := 1, transactions := [txA], timestamp := 7, previous_hash := "00",
          nonce := 0, hash := none } = some (nb, pf) ∧
      add_block constDigest { unconfirmed_transactions := [txA], chain := [gBlock00] } nb pf =
        Except.ok ({ unconfirmed_transactions := [txA],
                     chain := [gBlock00] ++ [{ nb with hash := some pf }] }, true) ∧
      mine constDigest fuel 7 { unconfirmed_transactions := [txA], chain := [gBlock00] } =
        some (Except.ok ({ unconfirmed_transactions := [],
                           chain := [gBlock00] ++ [{ nb with hash := some pf }] }, true)) :=
  ⟨(C10_mine_succeeds_iff_pending constDigest 7 (init_blockchain constDigest)).1 3 rfl,
   (C10_mine_succeeds_iff_pending constDigest 7
      { unconfirmed_transactions := [txA], chain := [gBlock00] }).2
     gBlock00 "00" rfl rfl (by decide) ⟨0, by decide⟩⟩

/-- C4 witness: the amended theorem applied at a concrete failing dump (block 1
links to "zz" instead of the genesis digest, so its admission fails) and at the
empty dump (successful replay of nothing yields the genesis-only ledger). -/
theorem C4_dump_admission_failure_raises_witness :
    PyErr.exception "The chain dump is tampered!!" =
      PyErr.exception "The chain dump is tampered!!" ∧
    (init_blockchain constDigest).chain.length = max ([] : List BlockDump).length 1 :=
  ⟨(C4_dump_admission_failure_raises constDigest
      [{ index := 0, transactions := [], timestamp := 0, previous_hash := "0", nonce := 0,
         hash := "00" },
       { index := 1, transactions := [], timestamp := 2, previous_hash := "zz", nonce := 0,
         hash := "00" }]).1 _ rfl,
   (C4_dump_admission_failure_raises constDigest []).2 _ rfl⟩
